import Mathlib

/-!
Shallow embedding of the AzureFilesUtils recursive-search utility.

Sources embedded here:
* `src/recursiveSearch/src/index.ts` — the TypeScript CLI with the SQLite
  cache store (`DefaultCacheDb`): expected column maps, `columnsMatch`,
  `buildCreateTableQuery`, `init`, and the zod `searchArgsSchema` validation.
* `src/recursiveSearch/recursiveSearch.ps1` — the PowerShell search script:
  scope resolution (live share + snapshots sorted by snapshot time
  descending), the shared-key credential construction, and the BFS search
  loop with the `End` / `ScopeEnd` / `Continue` match behaviors.

Machine values are modelled as `Nat`/`Int`/`String`; fallible steps return
explicit outcome types.  Stateful SQLite operations are modelled as explicit
state passing over a `DbState`.
-/

namespace RecursiveSearch

/-! ### SQLite cache store: data model (index.ts lines 83-221) -/

/-- The four SQLite storage classes accepted by `sqliteDataTypeSchema`. -/
inductive SqliteDataType where
  | integer
  | real
  | text
  | blob
deriving DecidableEq, Repr

/-- An expected column description (`SqliteColumn` in index.ts). -/
structure SqliteColumn where
  name : String
  type : SqliteDataType
  nullable : Bool
  primaryKey : Bool
deriving DecidableEq, Repr

/-- One introspected row of `PRAGMA table_info`, after `sqliteSchemaSchema`
parsing: `cid`, `name`, declared `type` (possibly null), `notnull` coerced to
a boolean, and the numeric primary-key ordinal `pk`. -/
structure RawColumn where
  cid : Nat
  name : String
  type : Option SqliteDataType
  notnull : Bool
  pk : Nat
deriving DecidableEq, Repr

/-- The `fileSharesColumns` map of `DefaultCacheDb` (index.ts lines 107-181),
as the ordered list of its values. -/
def fileSharesColumns : List SqliteColumn :=
  [ ⟨"fileShareId", .text, false, true⟩,
    ⟨"dataPlaneUri", .text, false, true⟩,
    ⟨"resourceName", .text, false, false⟩,
    ⟨"resourceType", .text, false, false⟩,
    ⟨"resourceCreateDate", .integer, false, false⟩,
    ⟨"fileShareName", .text, false, false⟩,
    ⟨"isSnapshot", .integer, false, false⟩,
    ⟨"snapshotTime", .integer, false, false⟩ ]

/-- The `fileSystemEntriesColumns` map of `DefaultCacheDb`
(index.ts lines 183-221), as the ordered list of its values. -/
def fileSystemEntriesColumns : List SqliteColumn :=
  [ ⟨"fileShareId", .text, false, true⟩,
    ⟨"dataPlaneUri", .text, false, true⟩,
    ⟨"path", .text, false, true⟩,
    ⟨"entryName", .text, false, false⟩ ]

/-- `Map.get` over the ordered column list (the TS `Map` is keyed by the
column name). -/
def findColumn (expected : List SqliteColumn) (name : String) :
    Option SqliteColumn :=
  expected.find? (fun c => c.name == name)

/-- `Map.set` semantics for the `foundColumns` accumulator: overwrite the
entry with the same name, else append. -/
def setColumn (m : List SqliteColumn) (c : SqliteColumn) : List SqliteColumn :=
  if m.any (fun x => x.name == c.name) then
    m.map (fun x => if x.name == c.name then c else x)
  else
    m ++ [c]

/-- First loop of `DefaultCacheDb.columnsMatch` (index.ts lines 502-531):
walk the introspected schema, reject a column with a null declared type,
reject an unrecognized NOT NULL column, compare a recognized column against
the expected one, and accumulate the recognized columns.  Returns `none` for
an early `return false`.

Note: the source compares `expectedColumn.primaryKey !==
expectedColumn.primaryKey` (a self-comparison); that comparison is embedded
verbatim. -/
def columnsMatchLoop (expected : List SqliteColumn) :
    List SqliteColumn → List RawColumn → Option (List SqliteColumn)
  | found, [] => some found
  | found, rawColumn :: rest =>
    match rawColumn.type with
    | none => none
    | some rawType =>
      let foundColumn : SqliteColumn :=
        { name := rawColumn.name
          type := rawType
          nullable := !rawColumn.notnull
          primaryKey := rawColumn.pk != 0 }
      match findColumn expected foundColumn.name with
      | none =>
        if !foundColumn.nullable then none
        else columnsMatchLoop expected found rest
      | some expectedColumn =>
        if expectedColumn.type != foundColumn.type ||
            expectedColumn.nullable != foundColumn.nullable ||
            expectedColumn.primaryKey != expectedColumn.primaryKey then
          none
        else
          columnsMatchLoop expected (setColumn found foundColumn) rest

/-- `DefaultCacheDb.columnsMatch` (index.ts lines 498-548): the first loop
over the introspected schema followed by the second loop checking that every
expected column was found with identical type and nullability (the source's
primary-key comparison is again the verbatim self-comparison). -/
def columnsMatch (expected : List SqliteColumn) (sqliteSchema : List RawColumn) :
    Bool :=
  match columnsMatchLoop expected [] sqliteSchema with
  | none => false
  | some foundColumns =>
    expected.all fun expectedColumn =>
      match findColumn foundColumns expectedColumn.name with
      | none => false
      | some foundColumn =>
        !(expectedColumn.type != foundColumn.type ||
          expectedColumn.nullable != foundColumn.nullable ||
          expectedColumn.primaryKey != expectedColumn.primaryKey)

/-- `DefaultCacheDb.buildCreateTableQuery` (index.ts lines 550-592). -/
def buildCreateTableQuery (tableName : String) (columns : List SqliteColumn) :
    String :=
  let pieces := columns.map fun column =>
    "\"" ++ column.name ++ "\" " ++
      (match column.type with
        | .integer => "INTEGER"
        | .real => "REAL"
        | .text => "TEXT"
        | .blob => "BLOB") ++
      (if !column.nullable then " NOT NULL" else "")
  let primaryKeys := (columns.filter (fun c => c.primaryKey)).map (·.name)
  let pkClause :=
    if primaryKeys.length > 0 then
      ", PRIMARY KEY (" ++
        String.intercalate ", " (primaryKeys.map (fun n => "\"" ++ n ++ "\"")) ++
        ")"
    else ""
  "CREATE TABLE \"" ++ tableName ++ "\" (" ++
    String.intercalate ", " pieces ++ pkClause ++ ") STRICT"

/-! ### SQLite cache store: `init` as a state transformer -/

/-- The `PRAGMA table_info` shape of a table created by
`buildCreateTableQuery`: each declared column in order, with its declared
type, its NOT NULL flag, and its 1-based ordinal within the composite
primary key (0 for non-key columns). -/
def createdSchema (columns : List SqliteColumn) : List RawColumn :=
  let pkNames := (columns.filter (fun c => c.primaryKey)).map (·.name)
  (List.range columns.length).zip columns |>.map fun ic =>
    { cid := ic.1
      name := ic.2.name
      type := some ic.2.type
      notnull := !ic.2.nullable
      pk := match pkNames.indexOf? ic.2.name with
            | some j => j + 1
            | none => 0 }

/-- One persisted table: its introspected schema and its rows (rows are kept
abstract; only their survival across `init` matters). -/
structure TableState where
  schema : List RawColumn
  rows : List Nat
deriving DecidableEq, Repr

/-- The persisted cache database: the `FileShares` and `FileSystemEntries`
tables, each possibly absent. -/
structure DbState where
  fileShares : Option TableState
  fileSystemEntries : Option TableState
deriving DecidableEq, Repr

/-- `PRAGMA table_info(t)` result: empty when the table does not exist. -/
def tableInfo : Option TableState → List RawColumn
  | none => []
  | some t => t.schema

/-- A freshly created table: the schema produced by the CREATE TABLE query
and no rows. -/
def createTable (columns : List SqliteColumn) : TableState :=
  ⟨createdSchema columns, []⟩

/-- The typed failure detail carried by `CacheDbInitFailure`
(index.ts lines 48-77). -/
inductive InitFailureDetail where
  | pathFailure (dbParentDirectory : String)
  | connectionFailure (dbPath : String)
  | queryFailure (dbPath : String) (query : String)
  | resultSchemaFailure (dbPath : String)
deriving DecidableEq, Repr

/-- Outcome of `DefaultCacheDb.init`: a success result, a typed
`CacheDbInitFailure` result, or an exception escaping `init` (not a typed
result). -/
inductive InitOutcome where
  | ok
  | err (detail : InitFailureDetail)
  | thrown
deriving DecidableEq, Repr

/-- Environment describing which external steps fail during `init`:
whether `FileSystem.mkdir` rejects, whether opening the SQLite database
throws, which query texts fail when executed, and whether either
`sqliteSchemaSchema.safeParse` call fails. -/
structure InitEnv where
  mkdirFails : Bool
  connectFails : Bool
  queryFails : String → Bool
  parseFsFails : Bool
  parseEntriesFails : Bool

/-- The environment in which every external step succeeds. -/
def cleanEnv : InitEnv :=
  { mkdirFails := false
    connectFails := false
    queryFails := fun _ => false
    parseFsFails := false
    parseEntriesFails := false }

def walQuery : String := "PRAGMA journal_mode=WAL"

def fsSchemaQuery : String := "PRAGMA table_info(FileShares)"

def dropFsTableQuery : String := "DROP TABLE IF EXISTS FileShares"

def dropEntriesTableQuery : String := "DROP TABLE IF EXISTS FileSystemEntries"

def entriesSchemaQuery : String := "PRAGMA table_info(FileSystemEntries)"

def createFsTableQuery : String :=
  buildCreateTableQuery "FileShares" fileSharesColumns

def createEntriesTblQuery : String :=
  buildCreateTableQuery "FileSystemEntries" fileSystemEntriesColumns

/-- Second half of `DefaultCacheDb.init` (index.ts lines 401-495): validate
the `FileSystemEntries` table and drop/recreate it when it is missing or its
columns do not match. -/
def initEntries (env : InitEnv) (dbPath : String) (st : DbState) :
    InitOutcome × DbState :=
  if env.queryFails entriesSchemaQuery then
    (.err (.queryFailure dbPath entriesSchemaQuery), st)
  else if env.parseEntriesFails then
    (.err (.resultSchemaFailure dbPath), st)
  else
    let entriesInfo := tableInfo st.fileSystemEntries
    let createEntriesTable :=
      entriesInfo.isEmpty || !columnsMatch fileSystemEntriesColumns entriesInfo
    if createEntriesTable then
      if env.queryFails dropEntriesTableQuery then
        (.err (.queryFailure dbPath dropEntriesTableQuery), st)
      else
        let st1 : DbState := { st with fileSystemEntries := none }
        if env.queryFails createEntriesTblQuery then
          (.err (.queryFailure dbPath createEntriesTblQuery), st1)
        else
          (.ok, { st1 with
                    fileSystemEntries := some (createTable fileSystemEntriesColumns) })
    else
      (.ok, st)

/-- `DefaultCacheDb.init` (index.ts lines 243-496) as a state transformer.

Two behaviors of the source are embedded as they actually execute, not as the
surrounding code suggests:
* the `FileSystem.mkdir` call is not awaited, so a rejected mkdir promise
  never reaches the surrounding `catch`; a directory-creation failure does
  not alter `init`'s control flow and never produces the
  `CacheDbPathFailure` result (that branch is unreachable);
* the `PRAGMA journal_mode=WAL` statement runs outside any try/catch, so a
  failure there escapes as a thrown exception rather than a typed result;
* in the branch that drops `FileSystemEntries` after a dirty `FileShares`
  validation, the source reports `query: dropFsTableQuery` (the FileShares
  drop text) in the failure it returns (index.ts line 371); that query text
  is embedded verbatim. -/
def init (env : InitEnv) (dbPath : String) (st : DbState) :
    InitOutcome × DbState :=
  if env.connectFails then
    (.err (.connectionFailure dbPath), st)
  else if env.queryFails walQuery then
    (.thrown, st)
  else if env.queryFails fsSchemaQuery then
    (.err (.queryFailure dbPath fsSchemaQuery), st)
  else if env.parseFsFails then
    (.err (.resultSchemaFailure dbPath), st)
  else
    let fsInfo := tableInfo st.fileShares
    let createFsTable :=
      fsInfo.isEmpty || !columnsMatch fileSharesColumns fsInfo
    if createFsTable then
      if env.queryFails dropFsTableQuery then
        (.err (.queryFailure dbPath dropFsTableQuery), st)
      else
        let st1 : DbState := { st with fileShares := none }
        if env.queryFails dropEntriesTableQuery then
          (.err (.queryFailure dbPath dropFsTableQuery), st1)
        else
          let st2 : DbState := { st1 with fileSystemEntries := none }
          if env.queryFails createFsTableQuery then
            (.err (.queryFailure dbPath createFsTableQuery), st2)
          else
            initEntries env dbPath
              { st2 with fileShares := some (createTable fileSharesColumns) }
    else
      initEntries env dbPath st

/-! ### Traversal engine (recursiveSearch.ps1 lines 243-303) -/

/-- One child returned by `GetFilesAndDirectories`: its name and whether it
is a directory. -/
structure DirItem where
  name : String
  isDirectory : Bool
deriving DecidableEq, Repr

/-- The record written by `Write-Output` on a match (recursiveSearch.ps1
lines 276-284); the constant resource-group / storage-account / share-name
fields are elided, keeping the per-match `SnapshotTime` and `Path`. -/
structure MatchRecord where
  snapshotTime : Option Int
  path : String
deriving DecidableEq, Repr

/-- The `-MatchBehavior` parameter. -/
inductive MatchBehavior where
  | End
  | ScopeEnd
  | Continue
deriving DecidableEq, Repr

/-- Result of the inner `foreach ($dirItem in $dirEnum)` loop over one
directory listing: the matches emitted (in order), the queue as left by the
loop, the `$shouldBreak` flag, and the item paths enumerated (the `$path`
value computed for each item the loop reached). -/
structure ScanResult where
  emitted : List MatchRecord
  queue : List String
  shouldBreak : Bool
  seen : List String
deriving DecidableEq, Repr

/-- Result of the `while ($queue.Count -gt 0)` loop over one scope: matches,
the final `$shouldBreak`, the directory paths dequeued and listed, and all
item paths enumerated. -/
structure DrainResult where
  emitted : List MatchRecord
  shouldBreak : Bool
  visited : List String
  seen : List String
deriving DecidableEq, Repr

/-- Result of the `foreach ($targetScope in $targetScopes)` loop: the
matches of the whole run and, per processed scope, the directories visited
and the item paths enumerated. -/
structure RunResult where
  emitted : List MatchRecord
  visited : List (List String)
  seen : List (List String)
deriving DecidableEq, Repr

/-- One traversable scope: its `SnapshotTime` (none for the live share) and
the remote listing `GetFilesAndDirectories` scoped to it, as a function from
a directory path to its children. -/
structure TraversalScope where
  snapshotTime : Option Int
  listing : String → List DirItem

/-- The inner `foreach ($dirItem in $dirEnum)` loop (recursiveSearch.ps1
lines 271-297): build `$path = "$dirPath$($dirItem.Name)"`; on a name match
emit a record and apply the match behavior (`End`: set `$shouldBreak`, clear
the queue and break out of the loop before the directory check; `ScopeEnd`:
set `$shouldBreak` and continue); finally enqueue `"$path/"` when the item
is a directory. -/
def processItems (targetItemName : String) (matchBehavior : MatchBehavior)
    (snapshotTime : Option Int) (dirPath : String) :
    List DirItem → List String → Bool → ScanResult
  | [], queue, shouldBreak => ⟨[], queue, shouldBreak, []⟩
  | dirItem :: rest, queue, shouldBreak =>
    let path := dirPath ++ dirItem.name
    if dirItem.name = targetItemName then
      let m : MatchRecord := ⟨snapshotTime, path⟩
      match matchBehavior with
      | .End => ⟨[m], [], true, [path]⟩
      | .ScopeEnd =>
        let queue1 := if dirItem.isDirectory then queue ++ [path ++ "/"] else queue
        let r := processItems targetItemName .ScopeEnd snapshotTime dirPath
          rest queue1 true
        ⟨m :: r.emitted, r.queue, r.shouldBreak, path :: r.seen⟩
      | .Continue =>
        let queue1 := if dirItem.isDirectory then queue ++ [path ++ "/"] else queue
        let r := processItems targetItemName .Continue snapshotTime dirPath
          rest queue1 shouldBreak
        ⟨m :: r.emitted, r.queue, r.shouldBreak, path :: r.seen⟩
    else
      let queue1 := if dirItem.isDirectory then queue ++ [path ++ "/"] else queue
      let r := processItems targetItemName matchBehavior snapshotTime dirPath
        rest queue1 shouldBreak
      ⟨r.emitted, r.queue, r.shouldBreak, path :: r.seen⟩

/-- The `while ($queue.Count -gt 0)` loop (recursiveSearch.ps1 lines
254-298): dequeue a directory path, list its children, run the inner loop,
and continue with the queue and `$shouldBreak` it leaves behind.  `fuel`
bounds the number of iterations (the source's loop is unbounded). -/
def drainQueue (listing : String → List DirItem) (targetItemName : String)
    (matchBehavior : MatchBehavior) (snapshotTime : Option Int) :
    Nat → List String → Bool → DrainResult
  | 0, _, shouldBreak => ⟨[], shouldBreak, [], []⟩
  | _ + 1, [], shouldBreak => ⟨[], shouldBreak, [], []⟩
  | fuel + 1, dirPath :: queueRest, shouldBreak =>
    let s := processItems targetItemName matchBehavior snapshotTime dirPath
      (listing dirPath) queueRest shouldBreak
    let r := drainQueue listing targetItemName matchBehavior snapshotTime
      fuel s.queue s.shouldBreak
    ⟨s.emitted ++ r.emitted, r.shouldBreak, dirPath :: r.visited, s.seen ++ r.seen⟩

/-- The `foreach ($targetScope in $targetScopes)` loop (recursiveSearch.ps1
lines 243-303): per scope, seed the queue with `"/"`, reset `$shouldBreak`,
drain the queue, and stop the whole run when `$shouldBreak` is set. -/
def runScopes (targetItemName : String) (matchBehavior : MatchBehavior)
    (fuel : Nat) : List TraversalScope → RunResult
  | [] => ⟨[], [], []⟩
  | scope :: rest =>
    let r := drainQueue scope.listing targetItemName matchBehavior
      scope.snapshotTime fuel ["/"] false
    if r.shouldBreak then
      ⟨r.emitted, [r.visited], [r.seen]⟩
    else
      let r2 := runScopes targetItemName matchBehavior fuel rest
      ⟨r.emitted ++ r2.emitted, r.visited :: r2.visited, r.seen :: r2.seen⟩

/-! ### Scope resolution (recursiveSearch.ps1 lines 196-237) -/

/-- One share returned by `Get-AzStorageShare`. -/
structure StorageShare where
  name : String
  isDeleted : Bool
  isSnapshot : Bool
  snapshotTime : Option Int
deriving DecidableEq, Repr

/-- The `-SearchScope` parameter. -/
inductive SearchScope where
  | FileShare
  | FileShareSnapshots
  | Both
deriving DecidableEq, Repr

/-- `Where-Object { $_.Name -eq $FileShareName -and !$_.IsDeleted }`
over the prefix-filtered enumeration (recursiveSearch.ps1 lines 198-203):
the `$fileSharesMatchingName` list. -/
def matchingShares (fileShareName : String) (shares : List StorageShare) :
    List StorageShare :=
  shares.filter fun s => s.name == fileShareName && !s.isDeleted

/-- `Where-Object { !$_.IsSnapshot }`: the `$fileShare` live share(s). -/
def liveShares (fileShareName : String) (shares : List StorageShare) :
    List StorageShare :=
  (matchingShares fileShareName shares).filter fun s => !s.isSnapshot

/-- `Where-Object { $_.IsSnapshot }`: the snapshot set before sorting. -/
def snapshotShares (fileShareName : String) (shares : List StorageShare) :
    List StorageShare :=
  (matchingShares fileShareName shares).filter fun s => s.isSnapshot

/-- The sort key used by `Sort-Object -Property SnapshotTime`. -/
def snapKey (s : StorageShare) : Int :=
  s.snapshotTime.getD 0

/-- The descending order on shares used by
`Sort-Object -Property SnapshotTime -Descending`. -/
def snapDesc (a b : StorageShare) : Prop :=
  snapKey b ≤ snapKey a

instance : DecidableRel snapDesc := fun a b =>
  inferInstanceAs (Decidable (snapKey b ≤ snapKey a))

instance : IsTotal StorageShare snapDesc :=
  ⟨fun a b => le_total (snapKey b) (snapKey a)⟩

instance : IsTrans StorageShare snapDesc :=
  ⟨fun _ _ _ h1 h2 => le_trans h2 h1⟩

/-- `Sort-Object -Property SnapshotTime -Descending`. -/
def sortSnapshotsDesc (l : List StorageShare) : List StorageShare :=
  List.insertionSort snapDesc l

/-- The `$targetScopes` construction (recursiveSearch.ps1 lines 214-237):
the live share(s) when the scope includes the live share, followed by the
matching snapshots sorted by snapshot time descending when the scope
includes snapshots. -/
def targetScopes (searchScope : SearchScope) (fileShareName : String)
    (shares : List StorageShare) : List StorageShare :=
  (if searchScope = .FileShare || searchScope = .Both then
    liveShares fileShareName shares
  else []) ++
  (if searchScope = .FileShareSnapshots || searchScope = .Both then
    sortSnapshotsDesc (snapshotShares fileShareName shares)
  else [])

/-! ### Shared-key credential construction (recursiveSearch.ps1 line 241) -/

/-- A `StorageSharedKeyCredential`: the account name and key it was
constructed with. -/
structure StorageSharedKeyCredential where
  accountName : String
  key : String
deriving DecidableEq, Repr

/-- `$sharedKeyCred = [StorageSharedKeyCredential]::new("wgriesmfsressa2",
$key)`: the construction site has the script's `-StorageAccountName`
parameter in scope, but passes the hard-coded literal instead. -/
def mkSharedKeyCred (storageAccountName : String) (key : String) :
    StorageSharedKeyCredential :=
  have _ := storageAccountName
  ⟨"wgriesmfsressa2", key⟩

/-! ### CLI argument validation (index.ts lines 678-693) -/

def isLowerAlphaNum (c : Char) : Bool :=
  (('a' ≤ c) && (c ≤ 'z')) || (('0' ≤ c) && (c ≤ '9'))

def isHexDigitChar (c : Char) : Bool :=
  (('0' ≤ c) && (c ≤ '9')) || (('a' ≤ c) && (c ≤ 'f')) ||
    (('A' ≤ c) && (c ≤ 'F'))

/-- Split a character list on dashes. -/
def splitDashes : List Char → List (List Char)
  | [] => [[]]
  | c :: rest =>
    let r := splitDashes rest
    if c == '-' then
      [] :: r
    else
      match r with
      | g :: gs => (c :: g) :: gs
      | [] => [[c]]

/-- `z.string().uuid()`, modelled as the 8-4-4-4-12 hex-digit layout. -/
def uuidValid (s : String) : Bool :=
  match splitDashes s.data with
  | [a, b, c, d, e] =>
    a.length == 8 && b.length == 4 && c.length == 4 && d.length == 4 &&
      e.length == 12 && (a ++ b ++ c ++ d ++ e).all isHexDigitChar
  | _ => false

/-- No two consecutive dashes (the `(-(?!-))` negative lookahead of the
share-name regex). -/
def noDoubleDash : List Char → Bool
  | [] => true
  | [_] => true
  | a :: b :: rest => !(a == '-' && b == '-') && noDoubleDash (b :: rest)

/-- The share-name regex
`^([a-z]|[0-9])([a-z]|[0-9]|(-(?!-))){1,61}([a-z]|[0-9])$` (index.ts lines
688-689): 3 to 63 characters, lowercase alphanumeric first and last
character, every character lowercase alphanumeric or a dash, and no two
consecutive dashes. -/
def fileShareNameValid (s : String) : Bool :=
  let cs := s.data
  decide (3 ≤ cs.length) && decide (cs.length ≤ 63) &&
    (match cs.head? with | some c => isLowerAlphaNum c | none => false) &&
    (match cs.getLast? with | some c => isLowerAlphaNum c | none => false) &&
    cs.all (fun c => isLowerAlphaNum c || c == '-') &&
    noDoubleDash cs

/-- `z.string().min(1).max(90)` for the resource group. -/
def resourceGroupValid (s : String) : Bool :=
  decide (1 ≤ s.length) && decide (s.length ≤ 90)

/-- `z.string().regex(/^[a-z0-9]{3,24}$/)` for the storage account. -/
def storageAccountValid (s : String) : Bool :=
  decide (3 ≤ s.length) && decide (s.length ≤ 24) &&
    s.data.all isLowerAlphaNum

/-- `targetItem: z.string()` (index.ts line 690): any string is accepted;
there is no non-emptiness refinement. -/
def targetItemValid (targetItem : String) : Bool :=
  have _ := targetItem
  true

/-- `searchScopeSchema` enum membership. -/
def searchScopeValid (s : String) : Bool :=
  s == "Both" || s == "FileShare" || s == "FileShareSnapshots"

/-- `matchBehaviorSchema` enum membership. -/
def matchBehaviorValid (s : String) : Bool :=
  s == "End" || s == "ScopeEnd" || s == "Continue"

/-- The composed search request, before validation. -/
structure SearchArgs where
  subscription : String
  resourceGroup : String
  storageAccount : String
  fileShare : String
  targetItem : String
  searchScope : String
  matchBehavior : String
deriving DecidableEq, Repr

/-- `searchArgsSchema.safeParse` (index.ts lines 684-693), as the
conjunction of the per-field validators; `true` means the parse succeeds
and the search proceeds to I/O. -/
def searchArgsValid (args : SearchArgs) : Bool :=
  uuidValid args.subscription &&
  resourceGroupValid args.resourceGroup &&
  storageAccountValid args.storageAccount &&
  fileShareNameValid args.fileShare &&
  targetItemValid args.targetItem &&
  searchScopeValid args.searchScope &&
  matchBehaviorValid args.matchBehavior

/-! ### Statement vocabulary for the traversal theorems -/

/-- The match records the inner loop emits for one directory listing. -/
def matchesOf (targetItemName : String) (snapshotTime : Option Int)
    (dirPath : String) (items : List DirItem) : List MatchRecord :=
  (items.filter (fun i => i.name == targetItemName)).map
    (fun i => ⟨snapshotTime, dirPath ++ i.name⟩)

/-- The directory paths (with trailing separator) the inner loop enqueues for
one directory listing. -/
def dirEnqueues (dirPath : String) (items : List DirItem) : List String :=
  (items.filter (·.isDirectory)).map (fun i => dirPath ++ i.name ++ "/")

/-- The item paths the inner loop computes for one directory listing. -/
def seenPaths (dirPath : String) (items : List DirItem) : List String :=
  items.map (fun i => dirPath ++ i.name)

/-- No two consecutive separators anywhere in the character list. -/
def noDoubleSlash : List Char → Bool
  | [] => true
  | [_] => true
  | a :: b :: rest => !(a == '/' && b == '/') && noDoubleSlash (b :: rest)

/-- A well-formed item path: exactly one leading slash (the leading slash
plus the absence of `//` anywhere). -/
def goodEntryPath (s : String) : Prop :=
  s.data.head? = some '/' ∧ noDoubleSlash s.data = true

/-- A well-formed queued directory path: a well-formed path with a trailing
separator. -/
def goodDirPath (s : String) : Prop :=
  goodEntryPath s ∧ s.data.getLast? = some '/'

/-- A well-formed child name: non-empty and free of separators. -/
def goodName (s : String) : Prop :=
  s.data ≠ [] ∧ '/' ∉ s.data

/-! ### C1: schema comparison and the primary-key flag -/

/-- An introspected FileShares schema identical to the expected one except
that `fileShareId` is not part of the primary key. -/
def pkDriftSchema : List RawColumn :=
  (createdSchema fileSharesColumns).map fun r =>
    if r.name == "fileShareId" then { r with pk := 0 } else r

/-- C1: the schema comparison does NOT report a mismatch when a column's
primary-key membership differs from the expected schema.  `pkDriftSchema`
agrees with the expected FileShares columns on names, types and nullability
but removes `fileShareId` from the primary key, yet `columnsMatch` reports
the schema as clean: the source compares `expectedColumn.primaryKey` with
itself (index.ts lines 525 and 541), so the primary-key flag is never
checked.  This refutes the claimed equivalence for the primary-key part. -/
theorem columnsMatch_ignores_primaryKey_drift :
    columnsMatch fileSharesColumns pkDriftSchema = true ∧
    (∃ c ∈ fileSharesColumns, c.primaryKey = true ∧
      ∀ r ∈ pkDriftSchema, r.name = c.name → r.pk = 0) := by
  decide

/-! ### C6: the shared-key credential account name is a constant -/

/-- C6: for any two invocations differing only in `-StorageAccountName`, the
account name used to construct the shared-key credential is the same
constant `"wgriesmfsressa2"`; the requested storage account never reaches
the credential. -/
theorem sharedKeyCred_accountName_constant :
    ∀ sa1 sa2 key : String,
      (mkSharedKeyCred sa1 key).accountName =
        (mkSharedKeyCred sa2 key).accountName ∧
      (mkSharedKeyCred sa1 key).accountName = "wgriesmfsressa2" :=
  fun _ _ _ => ⟨rfl, rfl⟩

/-! ### C7: initialization failures and the offending query text -/

/-- An environment where exactly the `DROP TABLE IF EXISTS
FileSystemEntries` statement fails. -/
def dropEntriesFailsEnv : InitEnv :=
  { cleanEnv with queryFails := fun q => q == dropEntriesTableQuery }

/-- C7 fails on the code: when dropping `FileSystemEntries` fails during a
FileShares reset, the typed failure returned by `init` carries the
FileShares drop text (`dropFsTableQuery`), not the offending
`dropEntriesTableQuery` (index.ts line 371); and a directory-creation
failure (`mkdirFails`) does not produce a typed `CacheDbPathFailure` at all
— `init` proceeds as if mkdir succeeded, because the source never awaits
the mkdir promise, so its catch block is unreachable. -/
theorem init_misattributes_dropEntries_failure :
    init dropEntriesFailsEnv "cache.db" ⟨none, none⟩ =
      (.err (.queryFailure "cache.db" dropFsTableQuery), ⟨none, none⟩) ∧
    dropFsTableQuery ≠ dropEntriesTableQuery ∧
    init { cleanEnv with mkdirFails := true } "cache.db" ⟨none, none⟩ =
      init cleanEnv "cache.db" ⟨none, none⟩ ∧
    (init { cleanEnv with mkdirFails := true } "cache.db" ⟨none, none⟩).1 =
      .ok := by
  decide

/-! ### C2: dirty FileShares table resets both tables -/

/-- C2: for every persisted database whose FileShares table is dirty
(introspection empty because the table does not exist, or the column set
does not match), `init` with no failing external step drops both tables,
recreates FileShares from the expected columns (every expected column, with
its type, NOT NULL flag and composite-primary-key membership reflected in
the created schema), recreates FileSystemEntries (just dropped, hence seen
as dirty), discards all rows, and returns the success result. -/
theorem init_recreates_both_on_dirty_fileShares (dbPath : String) (st : DbState)
    (h : tableInfo st.fileShares = [] ∨
         columnsMatch fileSharesColumns (tableInfo st.fileShares) = false) :
    init cleanEnv dbPath st =
      (.ok, ⟨some (createTable fileSharesColumns),
             some (createTable fileSystemEntriesColumns)⟩) ∧
    (∀ c ∈ fileSharesColumns, ∃ r ∈ createdSchema fileSharesColumns,
      r.name = c.name ∧ r.type = some c.type ∧ r.notnull = !c.nullable ∧
      ((r.pk ≠ 0) ↔ c.primaryKey = true)) := by
  refine ⟨?_, by decide⟩
  have hc : ((tableInfo st.fileShares).isEmpty ||
      !columnsMatch fileSharesColumns (tableInfo st.fileShares)) = true := by
    rcases h with h | h <;> simp [h]
  simp [init, cleanEnv, initEntries, hc, tableInfo]
  intro h1 h2
  simp [tableInfo, List.isEmpty_iff, h1, h2] at hc

/-- Witness for C2: a database with no FileShares table but a clean,
non-empty FileSystemEntries table is fully reset and `init` succeeds. -/
theorem init_recreates_both_on_dirty_fileShares_witness :
    init cleanEnv "cache.db"
      ⟨none, some ⟨createdSchema fileSystemEntriesColumns, [7]⟩⟩ =
      (.ok, ⟨some (createTable fileSharesColumns),
             some (createTable fileSystemEntriesColumns)⟩) :=
  (init_recreates_both_on_dirty_fileShares "cache.db"
    ⟨none, some ⟨createdSchema fileSystemEntriesColumns, [7]⟩⟩ (Or.inl rfl)).1

/-! ### C8: request validation and the empty target name -/

/-- A request whose fields are all valid except that the target item name is
empty. -/
def emptyTargetArgs : SearchArgs :=
  { subscription := "12345678-1234-4234-9234-123456789abc"
    resourceGroup := "rg"
    storageAccount := "storacct123"
    fileShare := "myshare"
    targetItem := ""
    searchScope := "Both"
    matchBehavior := "ScopeEnd" }

/-- C8 counterexample: a request with an EMPTY target item name and
otherwise valid fields passes `searchArgsSchema` validation — `targetItem:
z.string()` (index.ts line 690) has no non-emptiness refinement, so the
claimed rejection does not happen. -/
theorem emptyTarget_passes_validation :
    searchArgsValid emptyTargetArgs = true ∧
    emptyTargetArgs.targetItem = "" := by
  decide

/-- C8 as amended: validation never inspects the target item name (any
string, the empty string included, is accepted for `targetItem`, so the
outcome is independent of it), and a request with a non-empty target name
and a share name matching the naming grammar (with the other fields valid)
passes validation. -/
theorem validation_independent_of_targetItem :
    (∀ (args : SearchArgs) (t : String),
      searchArgsValid { args with targetItem := t } = searchArgsValid args) ∧
    searchArgsValid { emptyTargetArgs with targetItem := "file.docx" } = true :=
  ⟨fun _ _ => rfl, by decide⟩

/-! ### C5: scope ordering under breadth `Both` -/

theorem targetScopes_both (n : String) (l : List StorageShare) :
    targetScopes .Both n l =
      liveShares n l ++ sortSnapshotsDesc (snapshotShares n l) := rfl

/-- C5: for every scope list resolved with breadth `Both` (given pairwise
distinct snapshot times among the matching snapshots, per the data-model
invariant), every live scope precedes every snapshot scope in the traversal
order, and the snapshot scopes appear in strictly descending snapshot-time
order. -/
theorem scopeOrder_both (fileShareName : String) (shares : List StorageShare)
    (hdist : (snapshotShares fileShareName shares).Pairwise
      (fun a b => snapKey a ≠ snapKey b)) :
    (targetScopes .Both fileShareName shares).Pairwise (fun a b =>
      (b.isSnapshot = false → a.isSnapshot = false) ∧
      (a.isSnapshot = true → b.isSnapshot = true → snapKey b < snapKey a)) := by
  rw [targetScopes_both, List.pairwise_append]
  refine ⟨?_, ?_, ?_⟩
  · refine List.pairwise_of_forall_mem_list ?_
    intro a ha b hb
    have ha' : a.isSnapshot = false := by
      have := (List.mem_filter.1 ha).2
      simpa using this
    exact ⟨fun _ => ha', fun h => (nomatch ha'.symm.trans h)⟩
  · have hsorted : List.Pairwise snapDesc
        (sortSnapshotsDesc (snapshotShares fileShareName shares)) :=
      List.sorted_insertionSort snapDesc _
    have hperm : List.Perm (sortSnapshotsDesc (snapshotShares fileShareName shares))
        (snapshotShares fileShareName shares) :=
      List.perm_insertionSort snapDesc _
    have hdist' : (sortSnapshotsDesc (snapshotShares fileShareName shares)).Pairwise
        (fun a b => snapKey a ≠ snapKey b) :=
      (hperm.pairwise_iff (fun h => h.symm)).2 hdist
    have hboth := hsorted.and hdist'
    refine hboth.imp_of_mem ?_
    intro a b ha hb hr
    have hb' : b.isSnapshot = true := by
      have := (List.mem_filter.1 (hperm.mem_iff.1 hb)).2
      simpa using this
    refine ⟨fun hfalse => (nomatch hb'.symm.trans hfalse), fun _ _ => ?_⟩
    exact lt_of_le_of_ne hr.1 (fun he => hr.2 he.symm)
  · intro a ha b hb
    have ha' : a.isSnapshot = false := by
      have := (List.mem_filter.1 ha).2
      simpa using this
    have hb' : b.isSnapshot = true := by
      have hperm : List.Perm (sortSnapshotsDesc (snapshotShares fileShareName shares))
          (snapshotShares fileShareName shares) :=
        List.perm_insertionSort snapDesc _
      have := (List.mem_filter.1 (hperm.mem_iff.1 hb)).2
      simpa using this
    exact ⟨fun hfalse => (nomatch hb'.symm.trans hfalse),
           fun h => (nomatch ha'.symm.trans h)⟩

/-- A concrete share enumeration: one matching live share, three matching
snapshots with distinct times (listed out of order), a deleted share and a
share with a different name. -/
def demoShares : List StorageShare :=
  [ ⟨"share1", false, true, some 5⟩,
    ⟨"share1", false, false, none⟩,
    ⟨"share1", false, true, some 9⟩,
    ⟨"other", false, true, some 7⟩,
    ⟨"share1", true, true, some 3⟩,
    ⟨"share1", false, true, some 1⟩ ]

/-- Witness for C5 at a concrete share enumeration. -/
theorem scopeOrder_both_witness :
    (targetScopes .Both "share1" demoShares).Pairwise (fun a b =>
      (b.isSnapshot = false → a.isSnapshot = false) ∧
      (a.isSnapshot = true → b.isSnapshot = true → snapKey b < snapKey a)) :=
  scopeOrder_both "share1" demoShares (by decide)

/-! ### Traversal lemmas: the inner loop -/

theorem processItems_continue (t : String) (st : Option Int) (d : String)
    (items : List DirItem) : ∀ (queue : List String) (sb : Bool),
    processItems t .Continue st d items queue sb =
      ⟨matchesOf t st d items, queue ++ dirEnqueues d items, sb,
       seenPaths d items⟩ := by
  induction items with
  | nil => intro queue sb; simp [processItems, matchesOf, dirEnqueues, seenPaths]
  | cons item rest ih =>
    intro queue sb
    by_cases h : item.name = t <;> by_cases hd : item.isDirectory <;>
      simp [processItems, h, hd, ih, matchesOf, dirEnqueues, seenPaths]

theorem processItems_scopeEnd (t : String) (st : Option Int) (d : String)
    (items : List DirItem) : ∀ (queue : List String) (sb : Bool),
    processItems t .ScopeEnd st d items queue sb =
      ⟨matchesOf t st d items, queue ++ dirEnqueues d items,
       sb || items.any (fun i => i.name == t), seenPaths d items⟩ := by
  induction items with
  | nil => intro queue sb; simp [processItems, matchesOf, dirEnqueues, seenPaths]
  | cons item rest ih =>
    intro queue sb
    have hb : (item.name == t) = decide (item.name = t) := by
      by_cases h' : item.name = t <;> simp [h']
    by_cases h : item.name = t <;> by_cases hd : item.isDirectory <;>
      simp [processItems, h, hd, hb, ih, matchesOf, dirEnqueues, seenPaths]

theorem processItems_end_noMatch (t : String) (st : Option Int) (d : String) :
    ∀ (items : List DirItem), (∀ i ∈ items, i.name ≠ t) →
    ∀ (queue : List String) (sb : Bool),
    processItems t .End st d items queue sb =
      ⟨[], queue ++ dirEnqueues d items, sb, seenPaths d items⟩
  | [], _, queue, sb => by simp [processItems, dirEnqueues, seenPaths]
  | item :: rest, hnm, queue, sb => by
    have h : ¬item.name = t := hnm item (List.mem_cons_self _ _)
    have ihr := processItems_end_noMatch t st d rest
      (fun i hi => hnm i (List.mem_cons_of_mem _ hi))
    by_cases hd : item.isDirectory <;>
      simp [processItems, h, hd, ihr, dirEnqueues, seenPaths]

theorem processItems_end_firstMatch (t : String) (st : Option Int) (d : String) :
    ∀ (pre : List DirItem) (item : DirItem) (post : List DirItem),
    (∀ i ∈ pre, i.name ≠ t) → item.name = t →
    ∀ (queue : List String) (sb : Bool),
    processItems t .End st d (pre ++ item :: post) queue sb =
      ⟨[⟨st, d ++ item.name⟩], [], true, seenPaths d pre ++ [d ++ item.name]⟩
  | [], item, post, _, hm, queue, sb => by
    simp [processItems, hm, seenPaths]
  | p :: pre, item, post, hnm, hm, queue, sb => by
    have h : ¬p.name = t := hnm p (List.mem_cons_self _ _)
    have ihr := processItems_end_firstMatch t st d pre item post
      (fun i hi => hnm i (List.mem_cons_of_mem _ hi)) hm
    by_cases hd : p.isDirectory <;>
      simp [processItems, h, hd, ihr, seenPaths]

/-! ### Traversal lemmas: the queue loop -/

theorem drainQueue_nilQueue (L : String → List DirItem) (t : String)
    (mb : MatchBehavior) (st : Option Int) :
    ∀ (fuel : Nat) (sb : Bool),
    drainQueue L t mb st fuel [] sb = ⟨[], sb, [], []⟩
  | 0, _ => rfl
  | _ + 1, _ => rfl

theorem drainQueue_end_match (L : String → List DirItem) (t : String)
    (st : Option Int) (fuel : Nat) (d : String) (queueRest : List String)
    (sb : Bool) (pre : List DirItem) (item : DirItem) (post : List DirItem)
    (hL : L d = pre ++ item :: post) (hnm : ∀ i ∈ pre, i.name ≠ t)
    (hm : item.name = t) :
    drainQueue L t .End st (fuel + 1) (d :: queueRest) sb =
      ⟨[⟨st, d ++ item.name⟩], true, [d], seenPaths d pre ++ [d ++ item.name]⟩ := by
  simp [drainQueue, hL, processItems_end_firstMatch t st d pre item post hnm hm,
    drainQueue_nilQueue]

theorem any_eq_not_isEmpty_matchesOf (t : String) (st : Option Int)
    (d : String) (items : List DirItem) :
    (items.any fun i => i.name == t) = !(matchesOf t st d items).isEmpty := by
  induction items with
  | nil => simp [matchesOf]
  | cons item rest ih =>
    have hb : (item.name == t) = decide (item.name = t) := by
      by_cases h' : item.name = t <;> simp [h']
    by_cases h : item.name = t <;> simp [matchesOf, hb, h, ih]

theorem drainQueue_scopeEnd_eq_continue (L : String → List DirItem)
    (t : String) (st : Option Int) :
    ∀ (fuel : Nat) (queue : List String) (sb sb' : Bool),
    (drainQueue L t .ScopeEnd st fuel queue sb).emitted =
      (drainQueue L t .Continue st fuel queue sb').emitted ∧
    (drainQueue L t .ScopeEnd st fuel queue sb).visited =
      (drainQueue L t .Continue st fuel queue sb').visited ∧
    (drainQueue L t .ScopeEnd st fuel queue sb).seen =
      (drainQueue L t .Continue st fuel queue sb').seen
  | 0, queue, sb, sb' => by simp [drainQueue]
  | fuel + 1, [], sb, sb' => by simp [drainQueue]
  | fuel + 1, d :: rest, sb, sb' => by
    have hs := processItems_scopeEnd t st d (L d) rest sb
    have hc := processItems_continue t st d (L d) rest sb'
    have ih := drainQueue_scopeEnd_eq_continue L t st fuel
      (rest ++ dirEnqueues d (L d)) (sb || (L d).any fun i => i.name == t) sb'
    simp [drainQueue, hs, hc, ih.1, ih.2.1, ih.2.2]

theorem drainQueue_scopeEnd_true (L : String → List DirItem)
    (t : String) (st : Option Int) :
    ∀ (fuel : Nat) (queue : List String),
    (drainQueue L t .ScopeEnd st fuel queue true).shouldBreak = true
  | 0, queue => by simp [drainQueue]
  | fuel + 1, [] => by simp [drainQueue]
  | fuel + 1, d :: rest => by
    have hs := processItems_scopeEnd t st d (L d) rest true
    have ih := drainQueue_scopeEnd_true L t st fuel
      (rest ++ dirEnqueues d (L d))
    simp [drainQueue, hs, ih]

theorem drainQueue_scopeEnd_break_of_match (L : String → List DirItem)
    (t : String) (st : Option Int) :
    ∀ (fuel : Nat) (queue : List String) (sb : Bool),
    (drainQueue L t .ScopeEnd st fuel queue sb).emitted ≠ [] →
    (drainQueue L t .ScopeEnd st fuel queue sb).shouldBreak = true
  | 0, queue, sb, hne => by simp [drainQueue] at hne
  | fuel + 1, [], sb, hne => by simp [drainQueue] at hne
  | fuel + 1, d :: rest, sb, hne => by
    have hs := processItems_scopeEnd t st d (L d) rest sb
    by_cases hm : matchesOf t st d (L d) = []
    · have hany : ((L d).any fun i => i.name == t) = false := by
        simp [any_eq_not_isEmpty_matchesOf t st d (L d), hm]
      have ih := drainQueue_scopeEnd_break_of_match L t st fuel
        (rest ++ dirEnqueues d (L d)) sb
      simp [drainQueue, hs, hm, hany] at hne ⊢
      exact ih hne
    · have hany : ((L d).any fun i => i.name == t) = true := by
        simp [any_eq_not_isEmpty_matchesOf t st d (L d), hm]
      have htrue := drainQueue_scopeEnd_true L t st fuel
        (rest ++ dirEnqueues d (L d))
      simp [drainQueue, hs, hany, htrue]

theorem processItems_end_cases (t : String) (st : Option Int) (d : String) :
    ∀ (items : List DirItem) (queue : List String) (sb : Bool),
    ((processItems t .End st d items queue sb).emitted = [] ∧
     (processItems t .End st d items queue sb).queue =
       queue ++ dirEnqueues d items ∧
     (processItems t .End st d items queue sb).shouldBreak = sb) ∨
    (∃ m, (processItems t .End st d items queue sb).emitted = [m] ∧
     (processItems t .End st d items queue sb).queue = [] ∧
     (processItems t .End st d items queue sb).shouldBreak = true)
  | [], queue, sb => by simp [processItems, dirEnqueues]
  | item :: rest, queue, sb => by
    by_cases h : item.name = t
    · right
      refine ⟨⟨st, d ++ item.name⟩, ?_, ?_, ?_⟩ <;> simp [processItems, h]
    · have ih := processItems_end_cases t st d rest
        (if item.isDirectory then queue ++ [d ++ item.name ++ "/"] else queue) sb
      rcases ih with ⟨he, hq, hsb⟩ | ⟨m, he, hq, hsb⟩
      · left
        refine ⟨?_, ?_, ?_⟩ <;> by_cases hd : item.isDirectory <;>
          simp [hd] at he hq hsb <;>
          simp [processItems, h, hd, he, hq, hsb, dirEnqueues]
      · right
        refine ⟨m, ?_, ?_, ?_⟩ <;> by_cases hd : item.isDirectory <;>
          simp [hd] at he hq hsb <;>
          simp [processItems, h, hd, he, hq, hsb]

theorem drainQueue_end_cases (L : String → List DirItem) (t : String)
    (st : Option Int) :
    ∀ (fuel : Nat) (queue : List String) (sb : Bool),
    ((drainQueue L t .End st fuel queue sb).emitted = [] ∧
     (drainQueue L t .End st fuel queue sb).shouldBreak = sb) ∨
    (∃ m, (drainQueue L t .End st fuel queue sb).emitted = [m] ∧
     (drainQueue L t .End st fuel queue sb).shouldBreak = true)
  | 0, queue, sb => by simp [drainQueue]
  | fuel + 1, [], sb => by simp [drainQueue]
  | fuel + 1, d :: rest, sb => by
    rcases processItems_end_cases t st d (L d) rest sb with
      ⟨he, hq, hsb⟩ | ⟨m, he, hq, hsb⟩
    · rcases drainQueue_end_cases L t st fuel
        (processItems t .End st d (L d) rest sb).queue
        (processItems t .End st d (L d) rest sb).shouldBreak with
        ⟨he2, hsb2⟩ | ⟨m, he2, hsb2⟩
      · left
        rw [hsb] at he2 hsb2
        exact ⟨by simp [drainQueue, hsb, he, he2],
               by simp [drainQueue, hsb, hsb2]⟩
      · right
        rw [hsb] at he2 hsb2
        exact ⟨m, by simp [drainQueue, hsb, he, he2],
               by simp [drainQueue, hsb, hsb2]⟩
    · right
      refine ⟨m, ?_, ?_⟩ <;>
        simp [drainQueue, he, hq, hsb, drainQueue_nilQueue]

/-! ### Traversal lemmas: the scope loop -/

theorem runScopes_break_stop (t : String) (mb : MatchBehavior) (fuel : Nat)
    (scope : TraversalScope) (rest : List TraversalScope)
    (hsb : (drainQueue scope.listing t mb scope.snapshotTime fuel ["/"]
      false).shouldBreak = true) :
    runScopes t mb fuel (scope :: rest) =
      ⟨(drainQueue scope.listing t mb scope.snapshotTime fuel ["/"] false).emitted,
       [(drainQueue scope.listing t mb scope.snapshotTime fuel ["/"] false).visited],
       [(drainQueue scope.listing t mb scope.snapshotTime fuel ["/"] false).seen]⟩ := by
  simp [runScopes, hsb]

theorem runScopes_end_le_one (t : String) (fuel : Nat) :
    ∀ (scopes : List TraversalScope),
    (runScopes t .End fuel scopes).emitted.length ≤ 1
  | [] => by simp [runScopes]
  | scope :: rest => by
    rcases drainQueue_end_cases scope.listing t scope.snapshotTime fuel ["/"]
      false with ⟨he, hsb⟩ | ⟨m, he, hsb⟩
    · simp [runScopes, hsb, he, runScopes_end_le_one t fuel rest]
    · simp [runScopes, hsb, he]

/-! ### C3: `End` behavior terminates the whole run at the first match -/

/-- C3: under match behavior `End`, at the moment a match is found the inner
loop stops at once: it emits exactly the matches found up to and including
that point in the current directory listing (the pre-match siblings matched
nothing, so exactly one record), clears the pending queue, skips the
remaining siblings (the result does not depend on `post` or on the pending
queue), the queue loop visits no further directory of the scope (visited is
exactly the current directory), the scope loop visits no subsequent scope
(the result does not depend on `rest`), and a whole `End` run emits at most
one match. -/
theorem end_behavior_stops_run :
    (∀ (t : String) (st : Option Int) (d : String) (pre : List DirItem)
       (item : DirItem) (post : List DirItem) (queue : List String) (sb : Bool),
       (∀ i ∈ pre, i.name ≠ t) → item.name = t →
       processItems t .End st d (pre ++ item :: post) queue sb =
         ⟨[⟨st, d ++ item.name⟩], [], true,
          seenPaths d pre ++ [d ++ item.name]⟩) ∧
    (∀ (L : String → List DirItem) (t : String) (st : Option Int) (fuel : Nat)
       (d : String) (queueRest : List String) (sb : Bool) (pre : List DirItem)
       (item : DirItem) (post : List DirItem),
       L d = pre ++ item :: post → (∀ i ∈ pre, i.name ≠ t) → item.name = t →
       drainQueue L t .End st (fuel + 1) (d :: queueRest) sb =
         ⟨[⟨st, d ++ item.name⟩], true, [d],
          seenPaths d pre ++ [d ++ item.name]⟩) ∧
    (∀ (t : String) (fuel : Nat) (scope : TraversalScope)
       (rest : List TraversalScope),
       (drainQueue scope.listing t .End scope.snapshotTime fuel ["/"]
         false).shouldBreak = true →
       runScopes t .End fuel (scope :: rest) =
         ⟨(drainQueue scope.listing t .End scope.snapshotTime fuel ["/"]
             false).emitted,
          [(drainQueue scope.listing t .End scope.snapshotTime fuel ["/"]
             false).visited],
          [(drainQueue scope.listing t .End scope.snapshotTime fuel ["/"]
             false).seen]⟩) ∧
    (∀ (t : String) (fuel : Nat) (scopes : List TraversalScope),
       (runScopes t .End fuel scopes).emitted.length ≤ 1) :=
  ⟨fun t st d pre item post queue sb hnm hm =>
     processItems_end_firstMatch t st d pre item post hnm hm queue sb,
   fun L t st fuel d queueRest sb pre item post hL hnm hm =>
     drainQueue_end_match L t st fuel d queueRest sb pre item post hL hnm hm,
   fun t fuel scope rest hsb => runScopes_break_stop t .End fuel scope rest hsb,
   fun t fuel scopes => runScopes_end_le_one t fuel scopes⟩

/-- A root listing with a match between two siblings, and a non-empty
listing everywhere else. -/
def siblingsListing : String → List DirItem := fun p =>
  if p = "/" then [⟨"a", false⟩, ⟨"t1", true⟩, ⟨"b", true⟩]
  else [⟨"zzz", false⟩]

/-- Witness for C3: in a concrete listing, the `End` drain emits exactly the
first match, skips the sibling after it, visits only the root directory and
discards the rest of the queue. -/
theorem end_behavior_stops_run_witness :
    drainQueue siblingsListing "t1" .End none 4 ["/", "/q/"] false =
      ⟨[⟨none, "/t1"⟩], true, ["/"], ["/a", "/t1"]⟩ := by
  exact end_behavior_stops_run.2.1 siblingsListing "t1" none 3 "/" ["/q/"]
    false [⟨"a", false⟩] ⟨"t1", true⟩ [⟨"b", true⟩] (by decide) (by decide) rfl

/-! ### C4: `ScopeEnd` drains the scope, then stops the run -/

/-- C4: under match behavior `ScopeEnd`, the inner loop processes the whole
remainder of the current directory's children (every match in the listing is
emitted, every directory child is still enqueued, and `$shouldBreak` records
whether a match occurred); the queue loop drains to exhaustion exactly as a
`Continue` drain would (same matches, same directories visited, same items
enumerated — so every match anywhere in the scope is found); and once a
scope whose drain emitted a match finishes, the scope loop does not proceed
to any subsequent scope (the run result does not depend on `rest`). -/
theorem scopeEnd_drains_scope_then_stops :
    (∀ (t : String) (st : Option Int) (d : String) (items : List DirItem)
       (queue : List String) (sb : Bool),
       processItems t .ScopeEnd st d items queue sb =
         ⟨matchesOf t st d items, queue ++ dirEnqueues d items,
          sb || items.any (fun i => i.name == t), seenPaths d items⟩) ∧
    (∀ (L : String → List DirItem) (t : String) (st : Option Int) (fuel : Nat)
       (queue : List String) (sb sb' : Bool),
       (drainQueue L t .ScopeEnd st fuel queue sb).emitted =
         (drainQueue L t .Continue st fuel queue sb').emitted ∧
       (drainQueue L t .ScopeEnd st fuel queue sb).visited =
         (drainQueue L t .Continue st fuel queue sb').visited ∧
       (drainQueue L t .ScopeEnd st fuel queue sb).seen =
         (drainQueue L t .Continue st fuel queue sb').seen) ∧
    (∀ (t : String) (fuel : Nat) (scope : TraversalScope)
       (rest : List TraversalScope),
       (drainQueue scope.listing t .ScopeEnd scope.snapshotTime fuel ["/"]
         false).emitted ≠ [] →
       runScopes t .ScopeEnd fuel (scope :: rest) =
         ⟨(drainQueue scope.listing t .ScopeEnd scope.snapshotTime fuel ["/"]
             false).emitted,
          [(drainQueue scope.listing t .ScopeEnd scope.snapshotTime fuel ["/"]
             false).visited],
          [(drainQueue scope.listing t .ScopeEnd scope.snapshotTime fuel ["/"]
             false).seen]⟩) :=
  ⟨fun t st d items queue sb => processItems_scopeEnd t st d items queue sb,
   fun L t st fuel queue sb sb' =>
     drainQueue_scopeEnd_eq_continue L t st fuel queue sb sb',
   fun t fuel scope rest hne =>
     runScopes_break_stop t .ScopeEnd fuel scope rest
       (drainQueue_scopeEnd_break_of_match scope.listing t scope.snapshotTime
         fuel ["/"] false hne)⟩

/-- A two-level listing with one match at the root and one nested inside a
directory listed after it. -/
def twoScopeListing : String → List DirItem := fun p =>
  if p = "/" then [⟨"t2", false⟩, ⟨"c", true⟩]
  else if p = "/c/" then [⟨"t2", true⟩]
  else []

/-- Witness for C4: with two resolved scopes over a concrete listing, a
`ScopeEnd` run emits both matches of the first scope (including the nested
one found after the first match) and never proceeds to the second scope. -/
theorem scopeEnd_drains_scope_then_stops_witness :
    runScopes "t2" .ScopeEnd 5
      [⟨some 1, twoScopeListing⟩, ⟨some 2, twoScopeListing⟩] =
      ⟨[⟨some 1, "/t2"⟩, ⟨some 1, "/c/t2"⟩],
       [["/", "/c/", "/c/t2/"]], [["/t2", "/c", "/c/t2"]]⟩ := by
  exact scopeEnd_drains_scope_then_stops.2.2 "t2" 5 ⟨some 1, twoScopeListing⟩
    [⟨some 2, twoScopeListing⟩] (by decide)

/-! ### C9: enqueuing of directory children vs. the match behavior -/

/-- A listing with a matched directory at the root containing a nested
match. -/
def nestListing : String → List DirItem := fun p =>
  if p = "/" then [⟨"x", true⟩]
  else if p = "/x/" then [⟨"x", false⟩]
  else []

/-- C9 counterexample: under match behavior `End`, a matched directory child
is NOT enqueued — the `break` in the `End` branch exits the item loop before
the `IsDirectory` check runs.  At the root of `nestListing`, the matched
directory `x` leaves the queue empty (`"/x/"` is never enqueued), the run
visits only `"/"`, and the nested match `"/x/x"` is never emitted, so a
matched directory is not searched for nested matches; this refutes the
claim as stated, which quantifies over every directory child under every
match behavior. -/
theorem end_matched_directory_not_enqueued :
    (processItems "x" .End none "/" [⟨"x", true⟩] [] false).queue = [] ∧
    runScopes "x" .End 5 [⟨none, nestListing⟩] =
      ⟨[⟨none, "/x"⟩], [["/"]], [["/x"]]⟩ ∧
    ⟨none, "/x/x"⟩ ∉ (runScopes "x" .End 5 [⟨none, nestListing⟩]).emitted := by
  decide

/-- C9 as amended: under the `ScopeEnd` and `Continue` match behaviors the
inner loop enqueues, for every directory child of the listing, its path with
a trailing separator, regardless of whether that child's name matched the
target (under `End`, children from the first match onward are not processed
and the queue is discarded). -/
theorem enqueue_regardless_of_match_nonEnd (mb : MatchBehavior)
    (hmb : mb ≠ .End) (t : String) (st : Option Int) (d : String)
    (items : List DirItem) (queue : List String) (sb : Bool) :
    (processItems t mb st d items queue sb).queue =
      queue ++ dirEnqueues d items := by
  cases mb with
  | End => exact absurd rfl hmb
  | ScopeEnd => rw [processItems_scopeEnd]
  | Continue => rw [processItems_continue]

/-- Witness for the amended C9: under `ScopeEnd`, a matched directory child
is still enqueued with its trailing separator. -/
theorem enqueue_regardless_of_match_nonEnd_witness :
    (processItems "x" .ScopeEnd none "/" [⟨"x", true⟩] [] false).queue =
      ["/x/"] := by
  exact enqueue_regardless_of_match_nonEnd .ScopeEnd (by decide) "x" none "/"
    [⟨"x", true⟩] [] false

/-! ### C10: path construction invariants -/
theorem noDoubleSlash_of_no_slash : ∀ (l : List Char), (∀ c ∈ l, c ≠ '/') →
    noDoubleSlash l = true
  | [], _ => rfl
  | [_], _ => rfl
  | a :: b :: rest, h => by
    have hba : (a == '/') = false := by simp [h a (List.mem_cons_self _ _)]
    have ih := noDoubleSlash_of_no_slash (b :: rest)
      (fun c hc => h c (List.mem_cons_of_mem _ hc))
    simp [noDoubleSlash, hba, ih]

theorem noDoubleSlash_append : ∀ (xs ys : List Char),
    noDoubleSlash xs = true → (∀ c ∈ ys, c ≠ '/') →
    noDoubleSlash (xs ++ ys) = true
  | [], ys, _, hy => noDoubleSlash_of_no_slash ys hy
  | [a], ys, _, hy => by
    cases ys with
    | nil => rfl
    | cons b ys' =>
      have hb : (b == '/') = false := by simp [hy b (List.mem_cons_self _ _)]
      have ih := noDoubleSlash_of_no_slash (b :: ys') hy
      simp [noDoubleSlash, hb, ih]
  | a :: b :: xs, ys, hx, hy => by
    simp only [noDoubleSlash, Bool.and_eq_true, Bool.not_eq_true'] at hx
    have ih := noDoubleSlash_append (b :: xs) ys hx.2 hy
    simp only [List.cons_append] at ih ⊢
    simp [noDoubleSlash, hx.1, ih]

theorem noDoubleSlash_concat_slash : ∀ (xs : List Char),
    noDoubleSlash xs = true → xs.getLast? ≠ some '/' →
    noDoubleSlash (xs ++ ['/']) = true
  | [], _, _ => rfl
  | [a], _, hl => by
    have ha : (a == '/') = false := by simpa using hl
    simp [noDoubleSlash, ha]
  | a :: b :: xs, hx, hl => by
    simp only [noDoubleSlash, Bool.and_eq_true, Bool.not_eq_true'] at hx
    have ih := noDoubleSlash_concat_slash (b :: xs) hx.2 (by simpa using hl)
    simp only [List.cons_append] at ih ⊢
    simp [noDoubleSlash, hx.1, ih]

theorem goodEntryPath_append (d n : String) (hd : goodDirPath d)
    (hn : goodName n) : goodEntryPath (d ++ n) := by
  obtain ⟨⟨hhead, hnds⟩, hlast⟩ := hd
  obtain ⟨hne, hnoslash⟩ := hn
  constructor
  · rw [String.data_append]
    cases hdd : d.data with
    | nil => rw [hdd] at hhead; simp at hhead
    | cons c cs =>
      rw [hdd] at hhead
      simp at hhead
      simp [hhead]
  · rw [String.data_append]
    exact noDoubleSlash_append d.data n.data hnds
      (fun c hc he => hnoslash (he ▸ hc))

theorem goodEntryPath_getLast_ne_slash (d n : String) (hn : goodName n) :
    (d ++ n).data.getLast? ≠ some '/' := by
  obtain ⟨hne, hnoslash⟩ := hn
  rw [String.data_append, List.getLast?_append]
  cases hnl : n.data.getLast? with
  | none => simp [List.getLast?_eq_none_iff] at hnl; exact absurd hnl hne
  | some c =>
    have hc : c ∈ n.data := List.mem_of_getLast?_eq_some hnl
    have : c ≠ '/' := fun he => hnoslash (he ▸ hc)
    simp [Option.or, this]

theorem goodDirPath_append_slash (d n : String) (hd : goodDirPath d)
    (hn : goodName n) : goodDirPath (d ++ n ++ "/") := by
  have hentry := goodEntryPath_append d n hd hn
  refine ⟨⟨?_, ?_⟩, ?_⟩
  · rw [String.data_append]
    cases hdd : (d ++ n).data with
    | nil => rfl
    | cons c cs =>
      have := hentry.1
      rw [hdd] at this
      simp at this
      simp [this]
  · rw [String.data_append]
    exact noDoubleSlash_concat_slash _ hentry.2
      (goodEntryPath_getLast_ne_slash d n hn)
  · rw [String.data_append]
    have : ("/" : String).data = ['/'] := rfl
    rw [this, List.getLast?_concat]



theorem processItems_goodPaths (t : String) (st : Option Int) (d : String)
    (hd : goodDirPath d) :
    ∀ (mb : MatchBehavior) (items : List DirItem) (queue : List String)
      (sb : Bool),
    (∀ i ∈ items, goodName i.name) → (∀ q ∈ queue, goodDirPath q) →
    (∀ q ∈ (processItems t mb st d items queue sb).queue, goodDirPath q) ∧
    (∀ p ∈ (processItems t mb st d items queue sb).seen, goodEntryPath p) ∧
    (∀ m ∈ (processItems t mb st d items queue sb).emitted,
      goodEntryPath m.path)
  | mb, [], queue, sb, _, hq => by
    exact ⟨hq, fun p hp => by simp [processItems] at hp,
           fun m hm => by simp [processItems] at hm⟩
  | mb, item :: rest, queue, sb, hni, hq => by
    have hname : goodName item.name := hni item (List.mem_cons_self _ _)
    have hrest : ∀ i ∈ rest, goodName i.name :=
      fun i hi => hni i (List.mem_cons_of_mem _ hi)
    have hpath : goodEntryPath (d ++ item.name) :=
      goodEntryPath_append d item.name hd hname
    have hq1 : ∀ q ∈ (if item.isDirectory then
        queue ++ [d ++ item.name ++ "/"] else queue), goodDirPath q := by
      by_cases hdir : item.isDirectory
      · simp only [hdir, if_true]
        intro q hq'
        rcases List.mem_append.1 hq' with hq' | hq'
        · exact hq q hq'
        · rw [List.mem_singleton.1 hq']
          exact goodDirPath_append_slash d item.name hd hname
      · simpa [hdir] using hq
    by_cases h : item.name = t
    · rw [h] at hpath hq1
      cases mb with
      | End =>
        refine ⟨?_, ?_, ?_⟩
        · intro q hq'
          simp [processItems, h] at hq'
        · intro p hp
          simp [processItems, h] at hp
          exact hp ▸ hpath
        · intro m hm
          simp [processItems, h] at hm
          exact hm ▸ hpath
      | ScopeEnd =>
        have ih := processItems_goodPaths t st d hd .ScopeEnd rest _ true
          hrest hq1
        refine ⟨?_, ?_, ?_⟩
        · intro q hq'
          simp only [processItems, h, if_pos] at hq'
          exact ih.1 q hq'
        · intro p hp
          simp only [processItems, h, if_pos] at hp
          simp at hp
          rcases hp with hp | hp
          · exact hp ▸ hpath
          · exact ih.2.1 p hp
        · intro m hm
          simp only [processItems, h, if_pos] at hm
          simp at hm
          rcases hm with hm | hm
          · exact hm ▸ hpath
          · exact ih.2.2 m hm
      | Continue =>
        have ih := processItems_goodPaths t st d hd .Continue rest _ sb
          hrest hq1
        refine ⟨?_, ?_, ?_⟩
        · intro q hq'
          simp only [processItems, h, if_pos] at hq'
          exact ih.1 q hq'
        · intro p hp
          simp only [processItems, h, if_pos] at hp
          simp at hp
          rcases hp with hp | hp
          · exact hp ▸ hpath
          · exact ih.2.1 p hp
        · intro m hm
          simp only [processItems, h, if_pos] at hm
          simp at hm
          rcases hm with hm | hm
          · exact hm ▸ hpath
          · exact ih.2.2 m hm
    · have ih := processItems_goodPaths t st d hd mb rest _ sb hrest hq1
      refine ⟨?_, ?_, ?_⟩
      · intro q hq'
        simp only [processItems, h, if_neg] at hq'
        exact ih.1 q hq'
      · intro p hp
        simp only [processItems, h, if_neg] at hp
        simp at hp
        rcases hp with hp | hp
        · exact hp ▸ hpath
        · exact ih.2.1 p hp
      · intro m hm
        simp only [processItems, h, if_neg] at hm
        exact ih.2.2 m hm



theorem drainQueue_goodPaths (L : String → List DirItem) (t : String)
    (mb : MatchBehavior) (st : Option Int)
    (hLnames : ∀ p, ∀ i ∈ L p, goodName i.name) :
    ∀ (fuel : Nat) (queue : List String) (sb : Bool),
    (∀ q ∈ queue, goodDirPath q) →
    (∀ dd ∈ (drainQueue L t mb st fuel queue sb).visited, goodDirPath dd) ∧
    (∀ p ∈ (drainQueue L t mb st fuel queue sb).seen, goodEntryPath p) ∧
    (∀ m ∈ (drainQueue L t mb st fuel queue sb).emitted, goodEntryPath m.path)
  | 0, queue, sb, hq => by
    exact ⟨fun dd hdd => by simp [drainQueue] at hdd,
           fun p hp => by simp [drainQueue] at hp,
           fun m hm => by simp [drainQueue] at hm⟩
  | fuel + 1, [], sb, hq => by
    exact ⟨fun dd hdd => by simp [drainQueue] at hdd,
           fun p hp => by simp [drainQueue] at hp,
           fun m hm => by simp [drainQueue] at hm⟩
  | fuel + 1, dd :: rest, sb, hq => by
    have hdgood : goodDirPath dd := hq dd (List.mem_cons_self _ _)
    have hrest : ∀ q ∈ rest, goodDirPath q :=
      fun q hqq => hq q (List.mem_cons_of_mem _ hqq)
    have hstep := processItems_goodPaths t st dd hdgood mb (L dd) rest sb
      (hLnames dd) hrest
    have ih := drainQueue_goodPaths L t mb st hLnames fuel
      (processItems t mb st dd (L dd) rest sb).queue
      (processItems t mb st dd (L dd) rest sb).shouldBreak hstep.1
    refine ⟨?_, ?_, ?_⟩
    · intro x hx
      simp [drainQueue] at hx
      rcases hx with hx | hx
      · exact hx ▸ hdgood
      · exact ih.1 x hx
    · intro p hp
      simp [drainQueue] at hp
      rcases hp with hp | hp
      · exact hstep.2.1 p hp
      · exact ih.2.1 p hp
    · intro m hm
      simp [drainQueue] at hm
      rcases hm with hm | hm
      · exact hstep.2.2 m hm
      · exact ih.2.2 m hm

theorem goodDirPath_root : goodDirPath "/" := by
  refine ⟨⟨rfl, rfl⟩, rfl⟩



/-- A concrete two-level listing: the root has one directory child `foo`,
which has two file children. -/
def exampleListing : String → List DirItem := fun p =>
  if p = "/" then [⟨"foo", true⟩]
  else if p = "/foo/" then [⟨"bar", false⟩, ⟨"baz", false⟩]
  else []

/-- C10: seeding the queue at the root `"/"`, a child named `foo` of the
root is enumerated with path `"/foo"` and its own children with
`"/foo/<name>"` (the concrete first conjunct), and in general — whenever
every listed child name is non-empty and separator-free — every visited
directory path, every enumerated item path, every emitted match path (the
second conjunct) and every path the inner loop enqueues (the third
conjunct) has exactly one leading slash and no double slashes. -/
theorem rootPath_construction :
    (drainQueue exampleListing "qux" .Continue none 5 ["/"] false =
      ⟨[], false, ["/", "/foo/"], ["/foo", "/foo/bar", "/foo/baz"]⟩) ∧
    (∀ (L : String → List DirItem) (t : String) (mb : MatchBehavior)
       (st : Option Int) (fuel : Nat),
       (∀ p, ∀ i ∈ L p, goodName i.name) →
       (∀ dd ∈ (drainQueue L t mb st fuel ["/"] false).visited,
         goodDirPath dd) ∧
       (∀ p ∈ (drainQueue L t mb st fuel ["/"] false).seen,
         goodEntryPath p) ∧
       (∀ m ∈ (drainQueue L t mb st fuel ["/"] false).emitted,
         goodEntryPath m.path)) ∧
    (∀ (t : String) (mb : MatchBehavior) (st : Option Int) (d : String)
       (items : List DirItem) (queue : List String) (sb : Bool),
       goodDirPath d → (∀ i ∈ items, goodName i.name) →
       (∀ q ∈ queue, goodDirPath q) →
       ∀ q ∈ (processItems t mb st d items queue sb).queue, goodDirPath q) :=
  ⟨by decide,
   fun L t mb st fuel hL => drainQueue_goodPaths L t mb st hL fuel ["/"] false
     (fun q hq => by rw [List.mem_singleton.1 hq]; exact goodDirPath_root),
   fun t mb st d items queue sb hd hni hq =>
     (processItems_goodPaths t st d hd mb items queue sb hni hq).1⟩

/-- The example listing's child names are well formed. -/
theorem exampleListing_goodNames :
    ∀ p, ∀ i ∈ exampleListing p, goodName i.name :=
  fun p i hi => by
    by_cases h1 : p = "/"
    · simp [exampleListing, h1] at hi
      rw [hi]
      exact ⟨by decide, by decide⟩
    · by_cases h2 : p = "/foo/"
      · simp [exampleListing, h1, h2] at hi
        rcases hi with hi | hi <;> rw [hi] <;> exact ⟨by decide, by decide⟩
      · simp [exampleListing, h1, h2] at hi

/-- Witness for C10 at the concrete example listing: the visited directory
`"/foo/"`, the enumerated item path `"/foo/bar"` and the emitted match path
`"/foo/bar"` are all well formed. -/
theorem rootPath_construction_witness :
    goodDirPath "/foo/" ∧ goodEntryPath "/foo/bar" ∧
    goodEntryPath (MatchRecord.path ⟨none, "/foo/bar"⟩) :=
  ⟨(rootPath_construction.2.1 exampleListing "bar" .Continue none 5
      exampleListing_goodNames).1 "/foo/" (by decide),
   (rootPath_construction.2.1 exampleListing "bar" .Continue none 5
      exampleListing_goodNames).2.1 "/foo/bar" (by decide),
   (rootPath_construction.2.1 exampleListing "bar" .Continue none 5
      exampleListing_goodNames).2.2 ⟨none, "/foo/bar"⟩ (by decide)⟩

end RecursiveSearch
